import Mathlib

/-!
# Verification of the iflow2api protocol-translation gateway

Shallow embedding of the core of the `iflow2api` repository
(`src/iflow2api/app.py`, `src/iflow2api/proxy.py`,
`src/iflow2api/token_refresher.py`) together with proofs of the
specification's testable properties.

Conventions of the embedding:
* Python strings are Lean `String`; a missing / `None` / empty string field is
  modelled as `""` whenever the source only ever tests it for truthiness.
* Python `int` is `Int` where the source uses `-1` sentinels, `Nat` otherwise.
* Python dicts that the source treats as JSON records become structures;
  the insertion-ordered header dict becomes an association list.
* Library calls with no logic of their own (HMAC-SHA256 hexdigest, uuid
  generation) are opaque function parameters of the definitions embedding
  the code that calls them.
-/

namespace Iflow2Api

/-! ## 1. Wire fingerprint / signer (`proxy.py`) -/

/-- `IFLOW_CLI_USER_AGENT` from `proxy.py`. -/
def IFLOW_CLI_USER_AGENT : String := "iFlow-Cli"

/-- `IFLOW_CLI_VERSION` from `proxy.py`. -/
def IFLOW_CLI_VERSION : String := "0.5.13"

/-- Embeds `generate_signature` (`proxy.py` lines 31-52).

`hmacSha256Hex key message` stands for
`hmac.new(key.encode(), message.encode(), hashlib.sha256).hexdigest()`,
an opaque library call (it cannot fail on string inputs, so the defensive
`except` branch of the source is dead code and not modelled).
The empty string models a missing / empty api key (`if not api_key`). -/
def generate_signature (hmacSha256Hex : String → String → String)
    (userAgent sessionId : String) (timestamp : Nat) (apiKey : String) :
    Option String :=
  if apiKey = "" then none
  else some (hmacSha256Hex apiKey
    (userAgent ++ ":" ++ sessionId ++ ":" ++ toString timestamp))

/-- Embeds `IFlowProxy._get_headers` (`proxy.py` lines 80-136) as the
insertion-ordered association list of header names and values.
`timestamp` is `int(time.time() * 1000)`; `traceparent` is the final
traceparent value (given or freshly generated by the caller). -/
def get_headers (hmacSha256Hex : String → String → String)
    (apiKey sessionId conversationId : String) (timestamp : Nat)
    (traceparent : String) (isAone : Bool) : List (String × String) :=
  let base : List (String × String) :=
    [("Content-Type", "application/json"),
     ("Authorization", "Bearer " ++ apiKey),
     ("user-agent", IFLOW_CLI_USER_AGENT),
     ("session-id", sessionId),
     ("conversation-id", conversationId),
     ("accept", "*/*"),
     ("accept-language", "*"),
     ("sec-fetch-mode", "cors"),
     ("accept-encoding", "br, gzip, deflate")]
  let withSig :=
    match generate_signature hmacSha256Hex IFLOW_CLI_USER_AGENT sessionId
        timestamp apiKey with
    | some sig =>
        base ++ [("x-iflow-signature", sig),
                 ("x-iflow-timestamp", toString timestamp)]
    | none => base
  let withTrace := withSig ++ [("traceparent", traceparent)]
  if isAone then
    withTrace ++ [("X-Client-Type", "iflow-cli"),
                  ("X-Client-Version", IFLOW_CLI_VERSION)]
  else withTrace

/-- Header lookup: first value bound to a name in the ordered header list. -/
def headerLookup (headers : List (String × String)) (name : String) :
    Option String :=
  match headers with
  | [] => none
  | (k, v) :: rest => if k = name then some v else headerLookup rest name

/-! ## 2. Credential refresher (`token_refresher.py`) -/

/-- `REFRESH_BUFFER_SECONDS` from `token_refresher.py`. -/
def REFRESH_BUFFER_SECONDS : Nat := 24 * 60 * 60

/-- `RETRY_COUNT` from `token_refresher.py`. -/
def RETRY_COUNT : Nat := 5

/-- `RETRY_DELAY_SECONDS` from `token_refresher.py`. -/
def RETRY_DELAY_SECONDS : Nat := 30

/-- The credential fields of `IFlowConfig` read and written by the
refresher.  Expiry instants are seconds-precision timestamps (`Int`);
`none` models a missing expiry. -/
structure IFlowCredential where
  oauthRefreshToken : String
  oauthAccessToken : String
  apiKeyExpiresAt : Option Int
  oauthExpiresAt : Option Int
deriving Repr, DecidableEq

/-- Substring search on character lists (empty pattern always found). -/
def listContainsSub : List Char → List Char → Bool
  | _, [] => true
  | [], _ :: _ => false
  | c :: cs, p :: ps => List.isPrefixOf (p :: ps) (c :: cs) || listContainsSub cs (p :: ps)

/-- Substring test used to embed the `in` checks on Python error strings. -/
def containsSubstr (s pat : String) : Bool :=
  listContainsSub s.data pat.data

/-- ASCII lowercasing, embedding Python `str.lower()` on the error
messages involved. -/
def lowerString (s : String) : String :=
  ⟨s.data.map Char.toLower⟩

/-- Embeds `OAuthTokenRefresher._should_refresh`
(`token_refresher.py` lines 123-164).  `now` is `datetime.now()` as a
timestamp; `refreshBuffer` is `self.refresh_buffer`. -/
def should_refresh (refreshBuffer : Nat) (now : Int)
    (config : IFlowCredential) : Bool :=
  if config.oauthRefreshToken = "" then false
  else
    match config.apiKeyExpiresAt <|> config.oauthExpiresAt with
    | none => false
    | some expiresAt =>
      let timeUntilExpiry := expiresAt - now
      if timeUntilExpiry ≤ 0 then true
      else if timeUntilExpiry < (refreshBuffer : Int) then true
      else false

/-- Embeds the `is_transient_error` classifier inside
`_refresh_token_with_retry` (`token_refresher.py` lines 250-261). -/
def is_transient_error (msg : String) : Bool :=
  containsSubstr msg "太多" ||
  containsSubstr msg "服务器过载" ||
  containsSubstr (lowerString msg) "overload" ||
  containsSubstr (lowerString msg) "timeout" ||
  containsSubstr (lowerString msg) "timed out" ||
  containsSubstr (lowerString msg) "connect" ||
  containsSubstr msg "网络" ||
  containsSubstr msg "503" ||
  containsSubstr msg "502" ||
  containsSubstr msg "429"

/-- Embeds the `is_invalid_grant` classifier inside
`_refresh_token_with_retry` (`token_refresher.py` lines 263-268). -/
def is_invalid_grant (msg : String) : Bool :=
  containsSubstr msg "invalid_grant" ||
  containsSubstr msg "invalid_token" ||
  containsSubstr msg "refresh_token 无效" ||
  containsSubstr msg "已过期"

/-- Outcome of one `oauth.refresh_token` attempt: the token data on
success, or the raised exception's message.  Optional fields mirror
`token_data.get(...)` truthiness checks. -/
inductive RefreshOutcome where
  | ok (accessToken : String) (refreshToken : Option String)
       (expiresAt : Option Int)
  | err (msg : String)
deriving Repr, DecidableEq

/-- Embeds the config update on refresh success
(`token_refresher.py` lines 216-225). -/
def applyTokenData (cfg : IFlowCredential) (accessToken : String)
    (refreshTok : Option String) (expiresAt : Option Int) : IFlowCredential :=
  { cfg with
    oauthAccessToken := accessToken
    oauthRefreshToken :=
      match refreshTok with
      | some rt => if rt = "" then cfg.oauthRefreshToken else rt
      | none => cfg.oauthRefreshToken
    oauthExpiresAt :=
      match expiresAt with
      | some e => some e
      | none => cfg.oauthExpiresAt
    apiKeyExpiresAt :=
      match expiresAt with
      | some e => some e
      | none => cfg.apiKeyExpiresAt }

/-- Backoff delay slept after a transient failure of attempt `attempt`
(`token_refresher.py` lines 273-276): `retry_delay * 2 ** (attempt - 1)`
capped at 300 seconds. -/
def backoffDelay (retryDelay attempt : Nat) : Nat :=
  min (retryDelay * 2 ^ (attempt - 1)) 300

/-- Result of one whole refresh sequence: the (possibly updated) stored
credential, the number of attempts actually performed, the backoff delays
slept between consecutive attempts in order, and the success flag. -/
structure RefreshRun where
  config : IFlowCredential
  attempts : Nat
  delays : List Nat
  success : Bool
deriving Repr, DecidableEq

/-- Embeds the retry loop body of `_refresh_token_with_retry`
(`token_refresher.py` lines 206-289).  `outcome k` is what the `k`-th
call of `oauth.refresh_token` does; `remaining` is the number of loop
iterations left (`retry_count + 1 - attempt`), which drives termination.
A transient failure sleeps and continues only while `attempt <
retry_count` (i.e. `remaining > 1`); an invalid-grant or unknown failure
breaks out of the loop at once. -/
def refreshGo (retryDelay : Nat) (outcome : Nat → RefreshOutcome)
    (cfg : IFlowCredential) (attempt : Nat) :
    (remaining : Nat) → RefreshRun
  | 0 => ⟨cfg, attempt - 1, [], false⟩
  | r + 1 =>
    match outcome attempt with
    | .ok accessToken refreshTok expiresAt =>
        ⟨applyTokenData cfg accessToken refreshTok expiresAt, attempt, [],
         true⟩
    | .err msg =>
        if is_transient_error msg then
          if 0 < r then
            let d := backoffDelay retryDelay attempt
            let rest := refreshGo retryDelay outcome cfg (attempt + 1) r
            ⟨rest.config, rest.attempts, d :: rest.delays, rest.success⟩
          else
            refreshGo retryDelay outcome cfg (attempt + 1) r
        else ⟨cfg, attempt, [], false⟩

/-- Embeds `OAuthTokenRefresher._refresh_token_with_retry`
(`token_refresher.py` lines 187-323): the early return on a missing
`refresh_token`, then the retry loop. -/
def refresh_token_with_retry (retryCount retryDelay : Nat)
    (outcome : Nat → RefreshOutcome) (cfg : IFlowCredential) : RefreshRun :=
  if cfg.oauthRefreshToken = "" then ⟨cfg, 0, [], false⟩
  else refreshGo retryDelay outcome cfg 1 retryCount

/-! ## 3. Stream re-encoder (`app.py`, `/v1/messages` streaming path)

The upstream OpenAI-style SSE chunks are embedded at the level of their
parsed JSON payloads (`parse_openai_sse_chunk` output); the emitted
Anthropic SSE events are embedded as an inductive carrying exactly the
semantic fields serialised by the `create_anthropic_*` helpers
(`app.py` lines 126-227). -/

/-- One event of the re-encoded Anthropic stream. -/
inductive AnthropicEvent where
  | messageStart (model : String)
  | contentBlockStart (index : Int) (blockType : String)
  | toolUseBlockStart (index : Int) (toolUseId : String) (name : String)
  | contentBlockDelta (index : Int) (deltaType : String) (text : String)
  | inputJsonDelta (index : Int) (fragment : String)
  | contentBlockStop (index : Int)
  | messageDelta (stopReason : String) (outputTokens : Nat)
  | messageStop
deriving Repr, DecidableEq

/-- One element of an upstream `delta.tool_calls` array.  `id = none`
models a missing or null id (the source tests `tc_id or ...`, so `""`
is normalised to `none` here); `index` is `tc.get("index", 0)`. -/
structure ToolCallDelta where
  index : Int
  id : Option String
  name : String
  arguments : String
deriving Repr, DecidableEq

/-- The fields of an upstream `choices[0].delta` read by the re-encoder. -/
structure UpstreamDelta where
  content : String
  reasoningContent : String
  toolCalls : List ToolCallDelta
deriving Repr, DecidableEq

/-- One upstream choice: its delta and optional finish reason. -/
structure UpstreamChoice where
  delta : UpstreamDelta
  finishReason : Option String
deriving Repr, DecidableEq

/-- One parsed upstream SSE chunk. -/
structure UpstreamChunk where
  choices : List UpstreamChoice
deriving Repr, DecidableEq

/-- Embeds `extract_content_from_delta` (`app.py` lines 247-280):
returns the pair of content and kind, with `("", "")` when both channels
are empty. -/
def extract_content_from_delta (delta : UpstreamDelta)
    (preserveReasoning : Bool) : String × String :=
  if delta.content ≠ "" then (delta.content, "text")
  else if delta.reasoningContent ≠ "" then
    if preserveReasoning then (delta.reasoningContent, "thinking")
    else (delta.reasoningContent, "text")
  else ("", "")

/-- Embeds `IFlowProxy._normalize_stream_chunk` (`proxy.py` lines
317-363) on one delta: in compatibility mode the reasoning channel is
folded into the content channel when the latter is empty (deleting a key
is modelled as setting the field to `""`). -/
def normalize_stream_delta (preserveReasoning : Bool) (d : UpstreamDelta) :
    UpstreamDelta :=
  if d.content = "" ∧ d.reasoningContent ≠ "" then
    if preserveReasoning then d
    else { d with content := d.reasoningContent, reasoningContent := "" }
  else if d.content ≠ "" ∧ d.reasoningContent ≠ "" then
    if d.content = d.reasoningContent then { d with reasoningContent := "" }
    else if preserveReasoning then d
    else { d with reasoningContent := "" }
  else d

/-- Lifts `normalize_stream_delta` to a whole chunk (the source loops
over all choices). -/
def normalize_stream_chunk (preserveReasoning : Bool) (c : UpstreamChunk) :
    UpstreamChunk :=
  ⟨c.choices.map fun ch =>
    { ch with delta := normalize_stream_delta preserveReasoning ch.delta }⟩

/-- The per-tool-call entry of `tool_call_block_map`
(`app.py` line 1416). -/
structure ToolBlockInfo where
  blockIndex : Int
  toolUseId : String
  name : String
deriving Repr, DecidableEq

/-- Association-list lookup mirroring `tc_index in tool_call_block_map`
and `tool_call_block_map[tc_index]`. -/
def tcLookup (m : List (Int × ToolBlockInfo)) (i : Int) :
    Option ToolBlockInfo :=
  match m with
  | [] => none
  | (k, v) :: rest => if k = i then some v else tcLookup rest i

/-- The mutable state of `generate_anthropic_stream_with_lock`
(`app.py` lines 1354-1365).  `uuidCounter` counts the uuid draws used to
synthesize missing tool-use ids. -/
structure StreamState where
  blockIndex : Int
  outputTokens : Nat
  stopReason : String
  currentTextBlockType : Option String
  currentTextBlockIndex : Int
  toolCallBlockMap : List (Int × ToolBlockInfo)
  currentTcIndex : Int
  uuidCounter : Nat
deriving Repr, DecidableEq

/-- Initial stream state (`app.py` lines 1354-1365). -/
def initialStreamState : StreamState :=
  ⟨0, 0, "end_turn", none, -1, [], -1, 0⟩

/-- Embeds the text / thinking part of `_process_parsed_chunk`
(`app.py` lines 1380-1392): on a kind change close the previous text or
thinking block, open a new one at the next index, then emit the delta. -/
def processTextContent (preserveReasoning : Bool) (st : StreamState)
    (delta : UpstreamDelta) : StreamState × List AnthropicEvent :=
  let extracted := extract_content_from_delta delta preserveReasoning
  let content := extracted.1
  let contentType := extracted.2
  if content ≠ "" ∧ contentType ≠ "" then
    let opened :=
      if st.currentTextBlockType ≠ some contentType then
        let closeEvents :=
          match st.currentTextBlockType with
          | some _ => [AnthropicEvent.contentBlockStop st.currentTextBlockIndex]
          | none => []
        let newIndex := st.blockIndex
        let st1 := { st with
          currentTextBlockIndex := newIndex
          blockIndex := st.blockIndex + 1
          currentTextBlockType := some contentType }
        (st1, closeEvents ++ [AnthropicEvent.contentBlockStart newIndex contentType])
      else (st, [])
    let st2 := { opened.1 with
      outputTokens := opened.1.outputTokens + content.length / 4 }
    let deltaType := if contentType = "thinking" then "thinking_delta"
      else "text_delta"
    (st2, opened.2 ++
      [AnthropicEvent.contentBlockDelta st2.currentTextBlockIndex deltaType content])
  else (st, [])

/-- The tool-use id recorded at a tool index's first delta
(`app.py` line 1418): the upstream id when present and non-empty,
otherwise a freshly synthesized `toolu_…` id. -/
def synthesizedToolId (fresh : Nat → String) (st : StreamState)
    (tc : ToolCallDelta) : String :=
  if tc.id.getD "" = "" then "toolu_" ++ fresh st.uuidCounter
  else tc.id.getD ""

/-- Embeds one iteration of the tool-call loop of `_process_parsed_chunk`
(`app.py` lines 1395-1432): the first delta for an upstream tool index
closes the open text block and the previous tool block, opens a tool-use
block (synthesizing an id when the delta carries none) and records it in
the map; any argument fragment is streamed against the mapped block. -/
def processOneToolCall (fresh : Nat → String) (st : StreamState)
    (tc : ToolCallDelta) : StreamState × List AnthropicEvent :=
  let opened :=
    if (tcLookup st.toolCallBlockMap tc.index).isNone then
      let closeTextEvents :=
        match st.currentTextBlockType with
        | some _ => [AnthropicEvent.contentBlockStop st.currentTextBlockIndex]
        | none => []
      let closeToolEvents :=
        if 0 ≤ st.currentTcIndex then
          match tcLookup st.toolCallBlockMap st.currentTcIndex with
          | some info => [AnthropicEvent.contentBlockStop info.blockIndex]
          | none => []
        else []
      let tcBlockIndex := st.blockIndex
      let newId := synthesizedToolId fresh st tc
      let info : ToolBlockInfo := ⟨tcBlockIndex, newId, tc.name⟩
      let st1 := { st with
        currentTextBlockType := none
        blockIndex := st.blockIndex + 1
        toolCallBlockMap := st.toolCallBlockMap ++ [(tc.index, info)]
        currentTcIndex := tc.index
        uuidCounter := if tc.id.getD "" = "" then st.uuidCounter + 1
          else st.uuidCounter }
      (st1, closeTextEvents ++ closeToolEvents ++
        [AnthropicEvent.toolUseBlockStart tcBlockIndex newId tc.name])
    else (st, [])
  let argEvents :=
    if tc.arguments ≠ "" then
      match tcLookup opened.1.toolCallBlockMap tc.index with
      | some info => [AnthropicEvent.inputJsonDelta info.blockIndex tc.arguments]
      | none => []
    else []
  (opened.1, opened.2 ++ argEvents)

/-- The `for tc in tool_calls_delta` loop of `_process_parsed_chunk`. -/
def processToolCalls (fresh : Nat → String) (st : StreamState) :
    List ToolCallDelta → StreamState × List AnthropicEvent
  | [] => (st, [])
  | tc :: rest =>
    let first := processOneToolCall fresh st tc
    let later := processToolCalls fresh first.1 rest
    (later.1, first.2 ++ later.2)

/-- Embeds the finish-reason mapping of `_process_parsed_chunk`
(`app.py` lines 1434-1440). -/
def processFinishReason (st : StreamState) (finishReason : Option String) :
    StreamState :=
  if finishReason = some "tool_calls" then { st with stopReason := "tool_use" }
  else if finishReason = some "stop" then { st with stopReason := "end_turn" }
  else if finishReason = some "length" then
    { st with stopReason := "max_tokens" }
  else st

/-- Embeds `_process_parsed_chunk` (`app.py` lines 1367-1440) on one
parsed chunk: a chunk without choices is skipped; otherwise the first
choice's text content, tool calls and finish reason are processed in
order. -/
def process_parsed_chunk (fresh : Nat → String) (preserveReasoning : Bool)
    (st : StreamState) (chunk : UpstreamChunk) :
    StreamState × List AnthropicEvent :=
  match chunk.choices with
  | [] => (st, [])
  | choice :: _ =>
    let textPart := processTextContent preserveReasoning st choice.delta
    let toolPart := processToolCalls fresh textPart.1 choice.delta.toolCalls
    (processFinishReason toolPart.1 choice.finishReason,
     textPart.2 ++ toolPart.2)

/-- Folds `_process_parsed_chunk` over the parsed upstream chunks
(`app.py` lines 1442-1462). -/
def processChunks (fresh : Nat → String) (preserveReasoning : Bool)
    (st : StreamState) : List UpstreamChunk →
    StreamState × List AnthropicEvent
  | [] => (st, [])
  | c :: rest =>
    let first := process_parsed_chunk fresh preserveReasoning st c
    let later := processChunks fresh preserveReasoning first.1 rest
    (later.1, first.2 ++ later.2)

/-- Embeds the end-of-stream epilogue of
`generate_anthropic_stream_with_lock` (`app.py` lines 1464-1476): close
the open text block, close the open tool block, then emit the terminal
`message_delta` and `message_stop` events. -/
def finalEvents (st : StreamState) : List AnthropicEvent :=
  let closeText :=
    match st.currentTextBlockType with
    | some _ => [AnthropicEvent.contentBlockStop st.currentTextBlockIndex]
    | none => []
  let closeTool :=
    if 0 ≤ st.currentTcIndex then
      match tcLookup st.toolCallBlockMap st.currentTcIndex with
      | some info => [AnthropicEvent.contentBlockStop info.blockIndex]
      | none => []
    else []
  closeText ++ closeTool ++
    [AnthropicEvent.messageDelta st.stopReason st.outputTokens,
     AnthropicEvent.messageStop]

/-- Embeds `generate_anthropic_stream_with_lock`
(`app.py` lines 1345-1476) as a function of the parsed upstream chunks:
`message_start`, the re-encoded body, then the epilogue. -/
def generate_anthropic_stream (fresh : Nat → String)
    (preserveReasoning : Bool) (model : String)
    (chunks : List UpstreamChunk) : List AnthropicEvent :=
  let body := processChunks fresh preserveReasoning initialStreamState chunks
  AnthropicEvent.messageStart model :: body.2 ++ finalEvents body.1

/-- The full `/v1/messages` streaming pipeline for upstream chunks:
`IFlowProxy` normalisation (`_normalize_stream_chunk`) followed by the
Anthropic re-encoder, both driven by the same
`preserve_reasoning_content` setting. -/
def anthropic_stream_pipeline (fresh : Nat → String)
    (preserveReasoning : Bool) (model : String)
    (chunks : List UpstreamChunk) : List AnthropicEvent :=
  generate_anthropic_stream fresh preserveReasoning model
    (chunks.map (normalize_stream_chunk preserveReasoning))

/-- Recogniser for `content_block_start` events of either shape. -/
def isBlockStart : AnthropicEvent → Bool
  | .contentBlockStart _ _ => true
  | .toolUseBlockStart _ _ _ => true
  | _ => false

/-- Recogniser for `content_block_stop` events. -/
def isBlockStop : AnthropicEvent → Bool
  | .contentBlockStop _ => true
  | _ => false

/-- Block indices carried by the `content_block_start` events of a
stream, in emission order. -/
def startIndices (events : List AnthropicEvent) : List Int :=
  events.filterMap fun e =>
    match e with
    | .contentBlockStart i _ => some i
    | .toolUseBlockStart i _ _ => some i
    | _ => none

/-- Number of `content_block_start` events. -/
def countStarts (events : List AnthropicEvent) : Nat :=
  events.countP isBlockStart

/-- Number of `content_block_stop` events. -/
def countStops (events : List AnthropicEvent) : Nat :=
  events.countP isBlockStop

/-! ## 4. OpenAI-dialect streaming passthrough (`app.py`,
`/v1/chat/completions` streaming path) -/

/-- One item delivered to the caller by the OpenAI-dialect streaming
endpoint: an upstream chunk passed through, the synthesized fallback
content chunk, or the `data: [DONE]` marker. -/
inductive OpenAIStreamItem where
  | passthrough (raw : String)
  | fallbackContent (text : String) (finishReason : String)
  | doneMarker
deriving Repr, DecidableEq

/-- The diagnostic text of the zero-chunk fallback
(`app.py` line 1130). -/
def FALLBACK_TEXT : String := "上游api返回空信息，可能是上下文超限了"

/-- Embeds `generate_with_lock` of `chat_completions_openai`
(`app.py` lines 1098-1135) as a function of the upstream chunks and of
whether iteration raised after delivering them: every chunk is passed
through; on a clean end with at least one chunk a `[DONE]` marker is
appended; the `finally` block synthesizes a fallback content chunk plus
`[DONE]` whenever zero chunks arrived. -/
def generate_with_lock (chunks : List String) (errored : Bool) :
    List OpenAIStreamItem :=
  chunks.map OpenAIStreamItem.passthrough ++
  (if ¬errored ∧ chunks ≠ [] then [OpenAIStreamItem.doneMarker] else []) ++
  (if chunks = [] then
    [OpenAIStreamItem.fallbackContent FALLBACK_TEXT "stop",
     OpenAIStreamItem.doneMarker]
   else [])

/-! ## 5. Protocol translator (`app.py`, Anthropic → OpenAI request) -/

/-- `DEFAULT_IFLOW_MODEL` from `app.py` line 287. -/
def DEFAULT_IFLOW_MODEL : String := "glm-5"

/-- The `known_iflow_models` set of `get_mapped_model`
(`app.py` lines 305-316). -/
def known_iflow_models : List String :=
  ["glm-4.6", "glm-4.7", "glm-5",
   "iFlow-ROME-30BA3B", "deepseek-v3.2-chat",
   "qwen3-coder-plus", "kimi-k2", "kimi-k2-thinking", "kimi-k2.5",
   "kimi-k2-0905",
   "minimax-m2.5",
   "glm-4v", "glm-4v-plus", "glm-4v-flash", "glm-4.5v", "glm-4.6v",
   "moonshot-v1-8k-vision", "moonshot-v1-32k-vision",
   "moonshot-v1-128k-vision",
   "qwen-vl-plus", "qwen-vl-max", "qwen2.5-vl", "qwen3-vl"]

/-- Embeds `get_mapped_model` (`app.py` lines 290-323): a known iFlow
model id is kept, anything else collapses to the default model. -/
def get_mapped_model (anthropicModel : String) : String :=
  if anthropicModel ∈ known_iflow_models then anthropicModel
  else DEFAULT_IFLOW_MODEL

/-- A typed content block of an Anthropic message.  `toolUse.input`
carries the `json.dumps` serialisation of the input object;
`rawString` is a bare string element of a content list;
`other` is any block of an unrecognised type. -/
inductive ABlock where
  | text (s : String)
  | image
  | toolUse (id : Option String) (name : String) (input : String)
  | toolResult (toolUseId : String) (content : Sum String (List ABlock))
  | rawString (s : String)
  | other (btype : String)

/-- Content of an Anthropic message: a bare string or a block list. -/
inductive AContent where
  | str (s : String)
  | blocks (bs : List ABlock)

/-- One Anthropic message. -/
structure AMessage where
  role : String
  content : AContent

/-- The Anthropic `system` field: a string or a typed-block list
(each block a type tag and a text). -/
inductive ASystem where
  | str (s : String)
  | blocks (bs : List (String × String))
deriving Repr, DecidableEq

/-- The fields of an Anthropic Messages request read by the translator.
Sampling floats (`temperature`, `top_p`) are passed through verbatim by
the source and are outside this model. -/
structure ARequest where
  model : Option String
  system : Option ASystem
  messages : List AMessage
  maxTokens : Option Int
  stream : Option Bool

/-- One part of an OpenAI multimodal content array. -/
inductive OPart where
  | textPart (s : String)
  | imagePart
deriving Repr, DecidableEq

/-- Content of a translated OpenAI message: a plain string, JSON `null`
(assistant message with no text), or a multimodal part array. -/
inductive OContent where
  | str (s : String)
  | null
  | multimodal (parts : List OPart)
deriving Repr, DecidableEq

/-- One translated OpenAI tool call. -/
structure OToolCall where
  id : String
  name : String
  arguments : String
deriving Repr, DecidableEq

/-- One translated OpenAI message.  `toolCalls = none` models an absent
`tool_calls` key; `toolCallId` is only set on `role = "tool"` messages. -/
structure OMessage where
  role : String
  content : OContent
  toolCalls : Option (List OToolCall)
  toolCallId : Option String
deriving Repr, DecidableEq

/-- The translated OpenAI request fields this model tracks. -/
structure ORequest where
  model : String
  messages : List OMessage
  maxTokens : Option Int
  stream : Option Bool
deriving Repr, DecidableEq

/-- Plain OpenAI message without tool calls or tool id. -/
def plainOMessage (role : String) (content : OContent) : OMessage :=
  ⟨role, content, none, none⟩

/-- Embeds `detect_image_content` (`vision.py` lines 60-...) at the
granularity the translator needs: the image blocks of a content value
(string content never contains images). -/
def detect_image_content : AContent → List ABlock
  | .str _ => []
  | .blocks bs => bs.filter fun b =>
      match b with
      | .image => true
      | _ => false

/-- Joined text of the Anthropic `system` field
(`app.py` lines 372-382): block lists keep only `type = "text"` blocks
and join them with a single space. -/
def systemText : ASystem → String
  | .str s => s
  | .blocks bs =>
      String.intercalate " "
        ((bs.filter fun b => b.1 = "text").map fun b => b.2)

/-- Text parts extracted from a block list (`app.py` lines 393-396 and
440-443, 453-456): the texts of `type = "text"` blocks followed by the
bare string elements. -/
def textParts (bs : List ABlock) : List String :=
  ((bs.filterMap fun b =>
      match b with
      | .text s => some s
      | _ => none) ++
   (bs.filterMap fun b =>
      match b with
      | .rawString s => some s
      | _ => none))

/-- Flattened text of a tool-result content value
(`app.py` lines 420-427). -/
def toolResultText : Sum String (List ABlock) → String
  | .inl s => s
  | .inr bs =>
      String.intercalate "\n"
        (bs.filterMap fun b =>
          match b with
          | .text s => some s
          | _ => none)

/-- Translates one assistant message with block-list content
(`app.py` lines 390-414).  `fresh` synthesizes missing tool-call ids;
the returned counter accounts for the ids drawn. -/
def translateAssistantBlocks (fresh : Nat → String) (counter : Nat)
    (bs : List ABlock) : OMessage × Nat :=
  let toolUses := bs.filterMap fun b =>
    match b with
    | .toolUse i n inp => some (i, n, inp)
    | _ => none
  let textContent := String.intercalate "\n" (textParts bs)
  let content := if textContent = "" then OContent.null
    else OContent.str textContent
  let idFold := toolUses.foldl
    (fun (acc : List OToolCall × Nat) tu =>
      let given := tu.1.getD ""
      if given = "" then
        (acc.1 ++ [⟨"call_" ++ fresh acc.2, tu.2.1, tu.2.2⟩], acc.2 + 1)
      else
        (acc.1 ++ [⟨given, tu.2.1, tu.2.2⟩], acc.2))
    ([], counter)
  let toolCalls := if toolUses.isEmpty then none else some idFold.1
  (⟨"assistant", content, toolCalls, none⟩, idFold.2)

/-- Translates one non-assistant message with block-list content
(`app.py` lines 416-460): tool-result blocks first become `role = tool`
messages, then the remaining blocks become one user message (multimodal
when images are present; skipped when only tool results were present and
no text remains). -/
def translateUserBlocks (bs : List ABlock) : List OMessage :=
  let toolResults := bs.filterMap fun b =>
    match b with
    | .toolResult tuid c => some (tuid, c)
    | _ => none
  let toolMessages := toolResults.map fun tr =>
    ({ role := "tool", content := OContent.str (toolResultText tr.2),
       toolCalls := none, toolCallId := some tr.1 } : OMessage)
  let remaining := bs.filter fun b =>
    match b with
    | .toolResult _ _ => false
    | _ => true
  let userMessages :=
    if remaining.isEmpty then []
    else
      let images := (detect_image_content (.blocks remaining))
      if ¬images.isEmpty then
        let combined := String.intercalate "\n" (textParts remaining)
        let textBit := if combined.trim = "" then []
          else [OPart.textPart combined]
        [plainOMessage "user"
          (OContent.multimodal (textBit ++ images.map fun _ => OPart.imagePart))]
      else
        let combined := String.intercalate "\n" (textParts remaining)
        if combined ≠ "" ∨ toolResults.isEmpty then
          [plainOMessage "user" (OContent.str combined)]
        else []
  toolMessages ++ userMessages

/-- Translates the message list (`app.py` lines 370-464): the flattened
system prompt first (when non-empty), then each Anthropic message. -/
def translateMessages (fresh : Nat → String) (req : ARequest) :
    List OMessage :=
  let systemMessages :=
    match req.system with
    | none => []
    | some sys =>
        let s := systemText sys
        if s = "" then [] else [plainOMessage "system" (OContent.str s)]
  let bodyFold := req.messages.foldl
    (fun (acc : List OMessage × Nat) msg =>
      match msg.content with
      | .str s => (acc.1 ++ [plainOMessage msg.role (OContent.str s)], acc.2)
      | .blocks bs =>
          if msg.role = "assistant" then
            let translated := translateAssistantBlocks fresh acc.2 bs
            (acc.1 ++ [translated.1], translated.2)
          else
            (acc.1 ++ translateUserBlocks bs, acc.2))
    ([], 0)
  systemMessages ++ bodyFold.1

/-- Embeds `anthropic_to_openai_request` (`app.py` lines 326-511) on the
fields this model tracks: model mapping, message translation, and the
`max_tokens` / `stream` passthrough. -/
def anthropic_to_openai_request (fresh : Nat → String) (req : ARequest) :
    ORequest :=
  { model := get_mapped_model (req.model.getD DEFAULT_IFLOW_MODEL)
    messages := translateMessages fresh req
    maxTokens := req.maxTokens
    stream := req.stream }

/-! ## 6. Concurrency gate (`app.py` lifespan and request handlers)

The gate is `asyncio.Semaphore(settings.api_concurrency)` created in
`lifespan` (`app.py` line 578) and entered with `async with
_api_request_lock` around every upstream dispatch.  Because the handlers
hold the permit in an `async with` block that encloses the whole
streaming body, the permit is returned on every exit path — normal
completion, an upstream exception, and generator close on caller
disconnect — which the model reflects by giving the release transition
one label per exit kind and no other transition out of the dispatched
phase. -/

/-- Phase of one caller of a chat endpoint. -/
inductive CallerPhase where
  | idle
  | waiting
  | dispatched
  | finished
deriving Repr, DecidableEq

/-- How a dispatched call ends. -/
inductive ExitKind where
  | success
  | upstreamError
  | callerCancel
deriving Repr, DecidableEq

/-- Global gate state: free permits of the semaphore plus the phase of
each caller. -/
structure GateState where
  permits : Nat
  phases : List CallerPhase
deriving Repr, DecidableEq

/-- Initial state: a fresh semaphore of the configured capacity, all
callers idle. -/
def gateInit (capacity callers : Nat) : GateState :=
  ⟨capacity, List.replicate callers CallerPhase.idle⟩

/-- One scheduler step of the gated system. -/
inductive GateStep : GateState → GateState → Prop where
  | enter (p : Nat) (phases : List CallerPhase) (i : Nat)
      (h : phases[i]? = some CallerPhase.idle) :
      GateStep ⟨p, phases⟩ ⟨p, phases.set i CallerPhase.waiting⟩
  | acquire (p : Nat) (phases : List CallerPhase) (i : Nat)
      (h : phases[i]? = some CallerPhase.waiting) (hp : 0 < p) :
      GateStep ⟨p, phases⟩ ⟨p - 1, phases.set i CallerPhase.dispatched⟩
  | release (p : Nat) (phases : List CallerPhase) (i : Nat) (k : ExitKind)
      (h : phases[i]? = some CallerPhase.dispatched) :
      GateStep ⟨p, phases⟩ ⟨p + 1, phases.set i CallerPhase.finished⟩

/-- Reachability under gate steps. -/
def GateReachable (capacity callers : Nat) (s : GateState) : Prop :=
  Relation.ReflTransGen GateStep (gateInit capacity callers) s

/-- Number of callers currently in the dispatched (upstream in-flight)
phase. -/
def dispatchedCount (s : GateState) : Nat :=
  s.phases.countP fun ph => ph = CallerPhase.dispatched

/-! ## 7. Derived notions used by the statements and proofs -/

/-- Whether a text or thinking block is currently open (`1` or `0`). -/
def openTextCount (st : StreamState) : Nat :=
  if st.currentTextBlockType.isSome then 1 else 0

/-- Whether a tool-use block is currently open (`1` or `0`): the
epilogue closes the block of `currentTcIndex` exactly when that index is
non-negative and mapped. -/
def openToolCount (st : StreamState) : Nat :=
  if 0 ≤ st.currentTcIndex then
    match tcLookup st.toolCallBlockMap st.currentTcIndex with
    | some _ => 1
    | none => 0
  else 0

/-- Number of content blocks the epilogue still has to close. -/
def openCount (st : StreamState) : Nat :=
  openTextCount st + openToolCount st

/-- The start indices emitted while the block counter moves from `b` to
`b'`: a strictly increasing run confined to `[b, b')`. -/
def IncSeg (b b' : Int) (l : List Int) : Prop :=
  b ≤ b' ∧ l.Chain' (· < ·) ∧ ∀ x ∈ l, b ≤ x ∧ x < b'

/-- Example upstream chunk: a reasoning-only delta (no content, no tool
calls, no finish reason). -/
def reasoningChunk (r : String) : UpstreamChunk :=
  ⟨[⟨⟨"", r, []⟩, none⟩]⟩

/-- Example upstream chunk: a content delta with finish reason `stop`. -/
def contentChunk (c : String) : UpstreamChunk :=
  ⟨[⟨⟨c, "", []⟩, some "stop"⟩]⟩

end Iflow2Api

namespace Iflow2Api

/-! ## 8. Theorems -/

/-- C6.  For every chat request with a non-empty access token, the
`x-iflow-signature` header is the HMAC digest (keyed by the access
token) of `{client-name}:{session-id}:{ms-timestamp}` with client name
`iFlow-Cli`, and the `x-iflow-timestamp` header carries that same
millisecond timestamp. -/
theorem chat_signature_header_correct
    (hmacSha256Hex : String → String → String)
    (apiKey sessionId conversationId traceparent : String)
    (timestamp : Nat) (isAone : Bool) (h : apiKey ≠ "") :
    headerLookup (get_headers hmacSha256Hex apiKey sessionId conversationId
        timestamp traceparent isAone) "x-iflow-signature" =
      some (hmacSha256Hex apiKey
        ("iFlow-Cli" ++ ":" ++ sessionId ++ ":" ++ toString timestamp)) ∧
    headerLookup (get_headers hmacSha256Hex apiKey sessionId conversationId
        timestamp traceparent isAone) "x-iflow-timestamp" =
      some (toString timestamp) := by
  cases isAone <;>
    simp [get_headers, generate_signature, headerLookup, h,
      IFLOW_CLI_USER_AGENT]

/-- Witness for `chat_signature_header_correct` at a concrete token. -/
theorem chat_signature_header_correct_witness :
    headerLookup (get_headers (fun k m => k ++ "#" ++ m) "tok" "sess" "conv"
        17 "00-t-p-01" false) "x-iflow-signature" =
      some ((fun (k m : String) => k ++ "#" ++ m) "tok"
        ("iFlow-Cli" ++ ":" ++ "sess" ++ ":" ++ toString 17)) ∧
    headerLookup (get_headers (fun k m => k ++ "#" ++ m) "tok" "sess" "conv"
        17 "00-t-p-01" false) "x-iflow-timestamp" =
      some (toString 17) :=
  chat_signature_header_correct (fun k m => k ++ "#" ++ m) "tok" "sess"
    "conv" "00-t-p-01" 17 false (by decide)

/-- C10.  The header set contains `x-iflow-signature` if and only if it
contains `x-iflow-timestamp`; both are absent exactly when the access
token is empty; the other fixed headers are present regardless. -/
theorem signature_timestamp_headers_paired
    (hmacSha256Hex : String → String → String)
    (apiKey sessionId conversationId traceparent : String)
    (timestamp : Nat) (isAone : Bool) :
    ((headerLookup (get_headers hmacSha256Hex apiKey sessionId conversationId
        timestamp traceparent isAone) "x-iflow-signature").isSome ↔
      (headerLookup (get_headers hmacSha256Hex apiKey sessionId
        conversationId timestamp traceparent isAone)
        "x-iflow-timestamp").isSome) ∧
    ((headerLookup (get_headers hmacSha256Hex apiKey sessionId conversationId
        timestamp traceparent isAone) "x-iflow-signature") = none ↔
      apiKey = "") ∧
    (∀ name ∈ ["Authorization", "user-agent", "session-id",
        "conversation-id", "traceparent"],
      (headerLookup (get_headers hmacSha256Hex apiKey sessionId
        conversationId timestamp traceparent isAone) name).isSome) := by
  by_cases hk : apiKey = "" <;> cases isAone <;>
    simp [get_headers, generate_signature, headerLookup, hk,
      IFLOW_CLI_USER_AGENT]

/-- Witness for `signature_timestamp_headers_paired` at an empty access
token: both fingerprint headers are absent and the fixed headers are
still present. -/
theorem signature_timestamp_headers_paired_witness :
    ((headerLookup (get_headers (fun k m => k ++ "#" ++ m) "" "sess" "conv"
        17 "00-t-p-01" false) "x-iflow-signature") = none ↔
      ("" : String) = "") ∧
    (headerLookup (get_headers (fun k m => k ++ "#" ++ m) "" "sess" "conv"
        17 "00-t-p-01" false) "traceparent").isSome :=
  ⟨(signature_timestamp_headers_paired (fun k m => k ++ "#" ++ m) ""
      "sess" "conv" "00-t-p-01" 17 false).2.1,
   (signature_timestamp_headers_paired (fun k m => k ++ "#" ++ m) ""
      "sess" "conv" "00-t-p-01" 17 false).2.2 "traceparent" (by decide)⟩

/-- C8.  A credential whose `refresh_token` is absent or empty is never
classified as needing refresh, and the refresh routine returns at once:
zero attempts, no delays, and the stored credential unchanged. -/
theorem no_refresh_token_never_refreshed (refreshBuffer : Nat) (now : Int)
    (retryCount retryDelay : Nat) (outcome : Nat → RefreshOutcome)
    (cfg : IFlowCredential) (h : cfg.oauthRefreshToken = "") :
    should_refresh refreshBuffer now cfg = false ∧
    refresh_token_with_retry retryCount retryDelay outcome cfg =
      ⟨cfg, 0, [], false⟩ := by
  simp [should_refresh, refresh_token_with_retry, h]

/-- Witness for `no_refresh_token_never_refreshed` at a concrete
credential with no refresh token. -/
theorem no_refresh_token_never_refreshed_witness :
    should_refresh REFRESH_BUFFER_SECONDS 1000
      ⟨"", "ak", some 1500, none⟩ = false ∧
    refresh_token_with_retry RETRY_COUNT RETRY_DELAY_SECONDS
      (fun _ => RefreshOutcome.err "timeout")
      ⟨"", "ak", some 1500, none⟩ =
      ⟨⟨"", "ak", some 1500, none⟩, 0, [], false⟩ :=
  no_refresh_token_never_refreshed REFRESH_BUFFER_SECONDS 1000 RETRY_COUNT
    RETRY_DELAY_SECONDS (fun _ => RefreshOutcome.err "timeout")
    ⟨"", "ak", some 1500, none⟩ rfl

/-- C5.  Every model name outside the known-model set is replaced by the
default model, and the concrete typed-block request with model
`claude-x` and a single string user message translates to the default
model with upstream messages equal to the original single user
message. -/
theorem unknown_model_maps_to_default (m : String) (fresh : Nat → String)
    (h : m ∉ known_iflow_models) :
    get_mapped_model m = DEFAULT_IFLOW_MODEL ∧
    anthropic_to_openai_request fresh
        ⟨some "claude-x", none, [⟨"user", AContent.str "hi"⟩], none, none⟩ =
      ⟨"glm-5", [plainOMessage "user" (OContent.str "hi")], none, none⟩ := by
  refine ⟨?_, ?_⟩
  · simp [get_mapped_model, h]
  · rfl

/-- Witness for `unknown_model_maps_to_default` at the claim's model
name `claude-x`. -/
theorem unknown_model_maps_to_default_witness :
    get_mapped_model "claude-x" = DEFAULT_IFLOW_MODEL ∧
    anthropic_to_openai_request (fun _ => "u")
        ⟨some "claude-x", none, [⟨"user", AContent.str "hi"⟩], none, none⟩ =
      ⟨"glm-5", [plainOMessage "user" (OContent.str "hi")], none, none⟩ :=
  unknown_model_maps_to_default "claude-x" (fun _ => "u") (by decide)

/-- Unfolding step: a transient failure with iterations left sleeps the
backoff delay and continues with the next attempt. -/
theorem refreshGo_transient_step (retryDelay : Nat)
    (outcome : Nat → RefreshOutcome) (cfg : IFlowCredential)
    (attempt r : Nat) (m : String)
    (hm : outcome attempt = RefreshOutcome.err m)
    (ht : is_transient_error m = true) (hr : 0 < r) :
    refreshGo retryDelay outcome cfg attempt (r + 1) =
      ⟨(refreshGo retryDelay outcome cfg (attempt + 1) r).config,
       (refreshGo retryDelay outcome cfg (attempt + 1) r).attempts,
       backoffDelay retryDelay attempt ::
         (refreshGo retryDelay outcome cfg (attempt + 1) r).delays,
       (refreshGo retryDelay outcome cfg (attempt + 1) r).success⟩ := by
  obtain ⟨r, rfl⟩ := Nat.exists_eq_add_of_lt hr
  conv_lhs => rw [refreshGo]
  rw [hm]
  simp [ht]

/-- Unfolding step: a transient failure at the last attempt ends the
loop with the configured number of attempts performed. -/
theorem refreshGo_transient_last (retryDelay : Nat)
    (outcome : Nat → RefreshOutcome) (cfg : IFlowCredential)
    (attempt : Nat) (m : String)
    (hm : outcome attempt = RefreshOutcome.err m)
    (ht : is_transient_error m = true) :
    refreshGo retryDelay outcome cfg attempt 1 =
      ⟨cfg, attempt, [], false⟩ := by
  conv_lhs => rw [refreshGo]
  rw [hm]
  simp [ht, refreshGo]

/-- Unfolding step: a non-transient (terminal or unknown) failure breaks
out of the loop at once. -/
theorem refreshGo_fatal_step (retryDelay : Nat)
    (outcome : Nat → RefreshOutcome) (cfg : IFlowCredential)
    (attempt r : Nat) (m : String)
    (hm : outcome attempt = RefreshOutcome.err m)
    (ht : is_transient_error m = false) :
    refreshGo retryDelay outcome cfg attempt (r + 1) =
      ⟨cfg, attempt, [], false⟩ := by
  conv_lhs => rw [refreshGo]
  rw [hm]
  simp [ht]

/-- Retry loop under all-transient failures: it performs every remaining
attempt and sleeps the exponential-backoff delay after each attempt but
the last. -/
theorem refreshGo_all_transient (retryDelay : Nat)
    (outcome : Nat → RefreshOutcome) (cfg : IFlowCredential) :
    ∀ (r attempt : Nat),
      (∀ k, attempt ≤ k → k ≤ attempt + r →
        ∃ m, outcome k = RefreshOutcome.err m ∧ is_transient_error m = true) →
      refreshGo retryDelay outcome cfg attempt (r + 1) =
        ⟨cfg, attempt + r,
         (List.range' attempt r).map (backoffDelay retryDelay), false⟩ := by
  intro r
  induction r with
  | zero =>
    intro attempt h
    obtain ⟨m, hm, ht⟩ := h attempt le_rfl (by omega)
    simp [refreshGo_transient_last retryDelay outcome cfg attempt m hm ht]
  | succ r ih =>
    intro attempt h
    obtain ⟨m, hm, ht⟩ := h attempt le_rfl (by omega)
    have hrest := ih (attempt + 1) (fun k hk1 hk2 => h k (by omega) (by omega))
    rw [refreshGo_transient_step retryDelay outcome cfg attempt (r + 1) m hm
      ht (Nat.succ_pos r), hrest]
    simp only [List.range'_succ, List.map_cons, RefreshRun.mk.injEq,
      and_true, true_and]
    omega

/-- Retry loop hitting a terminal failure at attempt `k` after transient
failures only: it stops at attempt `k` with no further attempt and no
further delay. -/
theorem refreshGo_terminal (retryDelay : Nat)
    (outcome : Nat → RefreshOutcome) (cfg : IFlowCredential) (k : Nat)
    (msg : String) (hk : outcome k = RefreshOutcome.err msg)
    (hnt : is_transient_error msg = false) :
    ∀ (r attempt : Nat), attempt ≤ k → k ≤ attempt + r →
      (∀ j, attempt ≤ j → j < k →
        ∃ m, outcome j = RefreshOutcome.err m ∧ is_transient_error m = true) →
      refreshGo retryDelay outcome cfg attempt (r + 1) =
        ⟨cfg, k,
         (List.range' attempt (k - attempt)).map (backoffDelay retryDelay),
         false⟩ := by
  intro r
  induction r with
  | zero =>
    intro attempt h1 h2 h3
    have hak : attempt = k := by omega
    subst hak
    rw [refreshGo_fatal_step retryDelay outcome cfg attempt 0 msg hk hnt]
    simp
  | succ r ih =>
    intro attempt h1 h2 h3
    rcases Nat.lt_or_ge attempt k with hlt | hge
    · obtain ⟨m, hm, ht⟩ := h3 attempt le_rfl hlt
      have hrest := ih (attempt + 1) (by omega) (by omega)
        (fun j hj1 hj2 => h3 j (by omega) hj2)
      have hrange : List.range' attempt (k - attempt) =
          attempt :: List.range' (attempt + 1) (k - (attempt + 1)) := by
        have hka : k - attempt = (k - (attempt + 1)) + 1 := by omega
        rw [hka, List.range'_succ]
      rw [refreshGo_transient_step retryDelay outcome cfg attempt (r + 1) m
        hm ht (Nat.succ_pos r), hrest, hrange]
      simp
    · have hak : attempt = k := by omega
      subst hak
      rw [refreshGo_fatal_step retryDelay outcome cfg attempt (r + 1) msg hk
        hnt]
      simp

/-- C7.  Under the configured retry policy (5 attempts, 30-second base
delay), a refresh sequence whose attempts all fail transiently performs
exactly the configured number of attempts and then stops, sleeping
strictly increasing delays (30, 60, 120, 240 seconds) that never exceed
the 300-second cap; a terminal invalid-grant failure at any attempt
stops the sequence at that attempt with no further attempt or delay. -/
theorem refresh_retry_backoff (outcome : Nat → RefreshOutcome)
    (cfg : IFlowCredential) (htok : cfg.oauthRefreshToken ≠ "") :
    ((∀ k, 1 ≤ k → k ≤ RETRY_COUNT →
        ∃ m, outcome k = RefreshOutcome.err m ∧ is_transient_error m = true) →
      refresh_token_with_retry RETRY_COUNT RETRY_DELAY_SECONDS outcome cfg =
        ⟨cfg, RETRY_COUNT, [30, 60, 120, 240], false⟩ ∧
      List.Chain' (· < ·) ([30, 60, 120, 240] : List Nat) ∧
      ∀ d ∈ ([30, 60, 120, 240] : List Nat), d ≤ 300) ∧
    (∀ k msg, 1 ≤ k → k ≤ RETRY_COUNT →
      outcome k = RefreshOutcome.err msg → is_invalid_grant msg = true →
      is_transient_error msg = false →
      (∀ j, 1 ≤ j → j < k →
        ∃ m, outcome j = RefreshOutcome.err m ∧ is_transient_error m = true) →
      refresh_token_with_retry RETRY_COUNT RETRY_DELAY_SECONDS outcome cfg =
        ⟨cfg, k,
         (List.range' 1 (k - 1)).map (backoffDelay RETRY_DELAY_SECONDS),
         false⟩) := by
  constructor
  · intro h
    have h5 := refreshGo_all_transient RETRY_DELAY_SECONDS outcome cfg 4 1
      (fun k hk1 hk2 => h k hk1 (by simp only [RETRY_COUNT]; omega))
    refine ⟨?_, by norm_num [List.chain'_cons], by norm_num⟩
    rw [refresh_token_with_retry, if_neg htok]
    rw [show RETRY_COUNT = 4 + 1 from rfl, h5]
    rfl
  · intro k msg hk1 hk2 hout _ hnt hpre
    simp only [RETRY_COUNT] at hk2
    have h5 := refreshGo_terminal RETRY_DELAY_SECONDS outcome cfg k msg hout
      hnt 4 1 hk1 (by omega) (fun j hj1 hj2 => hpre j hj1 hj2)
    rw [refresh_token_with_retry, if_neg htok]
    rw [show RETRY_COUNT = 4 + 1 from rfl, h5]

/-- Witness for `refresh_retry_backoff` with all attempts timing out. -/
theorem refresh_retry_backoff_witness :
    refresh_token_with_retry RETRY_COUNT RETRY_DELAY_SECONDS
        (fun _ => RefreshOutcome.err "connect timeout")
        ⟨"rt", "ak", none, none⟩ =
      ⟨⟨"rt", "ak", none, none⟩, RETRY_COUNT, [30, 60, 120, 240], false⟩ :=
  ((refresh_retry_backoff (fun _ => RefreshOutcome.err "connect timeout")
      ⟨"rt", "ak", none, none⟩ (by decide)).1
    (fun k _ _ => ⟨"connect timeout", rfl, by decide⟩)).1

/-- C3 counterexample.  On the typed-block (`/v1/messages`) streaming
path, an upstream stream contributing zero content chunks is re-encoded
with NO content block at all: the caller receives only `message_start`,
`message_delta` and `message_stop`.  Thus the claim's guarantee of at
least one (synthesized) content block fails on this endpoint. -/
theorem empty_upstream_no_content_block_on_messages_endpoint :
    generate_anthropic_stream (fun _ => "u") true "glm-5" [] =
      [AnthropicEvent.messageStart "glm-5",
       AnthropicEvent.messageDelta "end_turn" 0,
       AnthropicEvent.messageStop] ∧
    countStarts (generate_anthropic_stream (fun _ => "u") true "glm-5" []) =
      0 := by
  constructor <;> rfl

/-- C3 amended.  On the flat-message (`/v1/chat/completions`) streaming
path an upstream stream with zero chunks is answered with one
synthesized diagnostic content chunk followed by the `[DONE]` terminal
marker (whether or not the upstream iteration raised), while the
typed-block (`/v1/messages`) streaming path emits its terminal events
(`message_delta`, `message_stop`) but zero content blocks. -/
theorem empty_upstream_stream_amended (fresh : Nat → String)
    (preserveReasoning : Bool) (model : String) (errored : Bool) :
    generate_with_lock [] errored =
      [OpenAIStreamItem.fallbackContent FALLBACK_TEXT "stop",
       OpenAIStreamItem.doneMarker] ∧
    generate_anthropic_stream fresh preserveReasoning model [] =
      [AnthropicEvent.messageStart model,
       AnthropicEvent.messageDelta "end_turn" 0,
       AnthropicEvent.messageStop] := by
  constructor
  · simp [generate_with_lock]
  · rfl

/-- C4 counterexample.  Re-encoding one reasoning-only chunk (`"Think"`)
followed by one content chunk (`"Hi"`) under the merge policy yields a
single text block whose deltas are the reasoning text FOLLOWED by the
content text — the reasoning text is folded in, not dropped, so the
block's text is not only the content-chunk text. -/
theorem merge_policy_keeps_reasoning_text :
    anthropic_stream_pipeline (fun _ => "u") false "glm-5"
        [reasoningChunk "Think", contentChunk "Hi"] =
      [AnthropicEvent.messageStart "glm-5",
       AnthropicEvent.contentBlockStart 0 "text",
       AnthropicEvent.contentBlockDelta 0 "text_delta" "Think",
       AnthropicEvent.contentBlockDelta 0 "text_delta" "Hi",
       AnthropicEvent.contentBlockStop 0,
       AnthropicEvent.messageDelta "end_turn" 1,
       AnthropicEvent.messageStop] := by
  rfl

/-- C4 amended.  One reasoning-only chunk followed by one content chunk:
under the merge policy the stream carries a single text block whose text
is the reasoning text followed by the content text (the reasoning
channel is folded into the text channel, not dropped); under the
preserve policy it carries two distinct blocks, a thinking block then a
text block. -/
theorem merge_preserve_streaming_amended (fresh : Nat → String)
    (model r c : String) (hr : r ≠ "") (hc : c ≠ "") :
    anthropic_stream_pipeline fresh false model
        [reasoningChunk r, contentChunk c] =
      [AnthropicEvent.messageStart model,
       AnthropicEvent.contentBlockStart 0 "text",
       AnthropicEvent.contentBlockDelta 0 "text_delta" r,
       AnthropicEvent.contentBlockDelta 0 "text_delta" c,
       AnthropicEvent.contentBlockStop 0,
       AnthropicEvent.messageDelta "end_turn" (r.length / 4 + c.length / 4),
       AnthropicEvent.messageStop] ∧
    anthropic_stream_pipeline fresh true model
        [reasoningChunk r, contentChunk c] =
      [AnthropicEvent.messageStart model,
       AnthropicEvent.contentBlockStart 0 "thinking",
       AnthropicEvent.contentBlockDelta 0 "thinking_delta" r,
       AnthropicEvent.contentBlockStop 0,
       AnthropicEvent.contentBlockStart 1 "text",
       AnthropicEvent.contentBlockDelta 1 "text_delta" c,
       AnthropicEvent.contentBlockStop 1,
       AnthropicEvent.messageDelta "end_turn" (r.length / 4 + c.length / 4),
       AnthropicEvent.messageStop] := by
  constructor <;>
    simp [anthropic_stream_pipeline, generate_anthropic_stream,
      processChunks, process_parsed_chunk, processTextContent,
      processToolCalls, processFinishReason, extract_content_from_delta,
      normalize_stream_chunk, normalize_stream_delta, finalEvents,
      initialStreamState, reasoningChunk, contentChunk, hr, hc]

/-- Witness for `merge_preserve_streaming_amended` at concrete texts. -/
theorem merge_preserve_streaming_amended_witness :
    anthropic_stream_pipeline (fun _ => "u") true "glm-5"
        [reasoningChunk "Think", contentChunk "Hi"] =
      [AnthropicEvent.messageStart "glm-5",
       AnthropicEvent.contentBlockStart 0 "thinking",
       AnthropicEvent.contentBlockDelta 0 "thinking_delta" "Think",
       AnthropicEvent.contentBlockStop 0,
       AnthropicEvent.contentBlockStart 1 "text",
       AnthropicEvent.contentBlockDelta 1 "text_delta" "Hi",
       AnthropicEvent.contentBlockStop 1,
       AnthropicEvent.messageDelta "end_turn"
         ("Think".length / 4 + "Hi".length / 4),
       AnthropicEvent.messageStop] :=
  (merge_preserve_streaming_amended (fun _ => "u") "glm-5" "Think" "Hi"
    (by decide) (by decide)).2

/-- Counting helper: setting a list element trades its contribution to
`countP` for the new element's contribution. -/
theorem countP_set_of_getElem? {α : Type} (p : α → Bool) :
    ∀ (l : List α) (i : Nat) (a b : α), l[i]? = some a →
      (l.set i b).countP p + (if p a then 1 else 0) =
        l.countP p + (if p b then 1 else 0) := by
  intro l
  induction l with
  | nil => intro i a b h; simp at h
  | cons x xs ih =>
    intro i a b h
    cases i with
    | zero =>
      simp only [List.getElem?_cons_zero, Option.some.injEq] at h
      subst h
      simp only [List.set_cons_zero, List.countP_cons]
      omega
    | succ i =>
      simp only [List.getElem?_cons_succ] at h
      have := ih i a b h
      simp only [List.set_cons_succ, List.countP_cons]
      omega

/-- The gate invariant: in every reachable state, free permits plus
dispatched callers equal the configured capacity. -/
theorem gate_invariant (capacity callers : Nat) (s : GateState)
    (h : GateReachable capacity callers s) :
    s.permits + dispatchedCount s = capacity := by
  induction h with
  | refl =>
    have h0 : (List.replicate callers CallerPhase.idle).countP
        (fun ph => ph = CallerPhase.dispatched) = 0 := by
      simp [List.countP_eq_zero, List.mem_replicate]
    simp [gateInit, dispatchedCount, h0]
  | tail _ step ih =>
    cases step with
    | enter p phases i hi =>
      have hc := countP_set_of_getElem?
        (fun ph => ph = CallerPhase.dispatched) phases i
        CallerPhase.idle CallerPhase.waiting hi
      simp only [dispatchedCount] at ih ⊢
      simp at hc
      omega
    | acquire p phases i hi hp =>
      have hc := countP_set_of_getElem?
        (fun ph => ph = CallerPhase.dispatched) phases i
        CallerPhase.waiting CallerPhase.dispatched hi
      simp only [dispatchedCount] at ih ⊢
      simp at hc
      omega
    | release p phases i k hi =>
      have hc := countP_set_of_getElem?
        (fun ph => ph = CallerPhase.dispatched) phases i
        CallerPhase.dispatched CallerPhase.finished hi
      simp only [dispatchedCount] at ih ⊢
      simp at hc
      omega

/-- C9.  With gate capacity 1 and any number of concurrent callers, in
every reachable state at most one call is in the dispatched (upstream
in-flight) phase, and while one is, the semaphore holds no free permit,
so no waiting caller can acquire; the release transition — the only exit
from the dispatched phase — exists for every exit kind (success,
upstream error, caller cancellation) and returns the permit. -/
theorem gate_capacity_one_mutual_exclusion (callers : Nat) (s : GateState)
    (h : GateReachable 1 callers s) :
    dispatchedCount s ≤ 1 ∧
    (dispatchedCount s = 1 → s.permits = 0) ∧
    (∀ (p : Nat) (phases : List CallerPhase) (i : Nat) (k : ExitKind),
      phases[i]? = some CallerPhase.dispatched →
      GateStep ⟨p, phases⟩ ⟨p + 1, phases.set i CallerPhase.finished⟩) := by
  have hinv := gate_invariant 1 callers s h
  exact ⟨by omega, by omega,
    fun p phases i k hi => GateStep.release p phases i k hi⟩

/-- Witness for `gate_capacity_one_mutual_exclusion` on a concrete
two-caller trace in which the first caller has entered, acquired the
permit, and is dispatched. -/
theorem gate_capacity_one_mutual_exclusion_witness :
    dispatchedCount ⟨0, [CallerPhase.dispatched, CallerPhase.idle]⟩ ≤ 1 := by
  have h1 : GateStep (gateInit 1 2)
      ⟨1, [CallerPhase.waiting, CallerPhase.idle]⟩ := by
    have := GateStep.enter 1 [CallerPhase.idle, CallerPhase.idle] 0 rfl
    simpa [gateInit] using this
  have h2 : GateStep
      (⟨1, [CallerPhase.waiting, CallerPhase.idle]⟩ : GateState)
      ⟨0, [CallerPhase.dispatched, CallerPhase.idle]⟩ := by
    have := GateStep.acquire 1 [CallerPhase.waiting, CallerPhase.idle] 0 rfl
      (by decide)
    simpa using this
  exact (gate_capacity_one_mutual_exclusion 2
    ⟨0, [CallerPhase.dispatched, CallerPhase.idle]⟩
    (Relation.ReflTransGen.tail (Relation.ReflTransGen.tail
      Relation.ReflTransGen.refl h1) h2)).1

/-- A mapped tool-call index stays mapped to the same entry under any
extension of the map. -/
theorem tcLookup_append_some (m m' : List (Int × ToolBlockInfo)) (i : Int)
    (v : ToolBlockInfo) (h : tcLookup m i = some v) :
    tcLookup (m ++ m') i = some v := by
  induction m with
  | nil => simp [tcLookup] at h
  | cons kv rest ih =>
    by_cases hk : kv.1 = i
    · rw [tcLookup, if_pos hk] at h
      simpa [tcLookup, hk] using h
    · rw [tcLookup, if_neg hk] at h
      simpa [tcLookup, hk] using ih h

/-- Inserting an unmapped index at the end of the map binds it. -/
theorem tcLookup_append_self (m : List (Int × ToolBlockInfo)) (i : Int)
    (v : ToolBlockInfo) (h : tcLookup m i = none) :
    tcLookup (m ++ [(i, v)]) i = some v := by
  induction m with
  | nil => simp [tcLookup]
  | cons kv rest ih =>
    by_cases hk : kv.1 = i
    · rw [tcLookup, if_pos hk] at h
      exact absurd h (by simp)
    · rw [tcLookup, if_neg hk] at h
      simpa [tcLookup, hk] using ih h

/-- Empty increasing segment. -/
theorem IncSeg_nil (b b' : Int) (h : b ≤ b') : IncSeg b b' [] :=
  ⟨h, List.chain'_nil, by simp⟩

/-- Singleton increasing segment at the segment's lower bound. -/
theorem IncSeg_singleton (b : Int) : IncSeg b (b + 1) [b] :=
  ⟨by omega, List.chain'_singleton b, by simp⟩

/-- Concatenation of adjacent increasing segments. -/
theorem IncSeg_append (b₁ b₂ b₃ : Int) (l₁ l₂ : List Int)
    (h₁ : IncSeg b₁ b₂ l₁) (h₂ : IncSeg b₂ b₃ l₂) :
    IncSeg b₁ b₃ (l₁ ++ l₂) := by
  obtain ⟨hb₁, hc₁, hm₁⟩ := h₁
  obtain ⟨hb₂, hc₂, hm₂⟩ := h₂
  refine ⟨le_trans hb₁ hb₂, ?_, ?_⟩
  · refine List.Chain'.append hc₁ hc₂ ?_
    intro x hx y hy
    have hxl : x ∈ l₁ := by
      obtain ⟨hne, hxe⟩ := List.mem_getLast?_eq_getLast hx
      exact hxe ▸ List.getLast_mem hne
    have hyl : y ∈ l₂ := by
      cases l₂ with
      | nil => simp at hy
      | cons a l => simp_all
    have := (hm₁ x hxl).2
    have := (hm₂ y hyl).1
    omega
  · intro x hx
    rcases List.mem_append.mp hx with hx₁ | hx₂
    · have := hm₁ x hx₁
      exact ⟨this.1, by omega⟩
    · have := hm₂ x hx₂
      exact ⟨by omega, this.2⟩

/-- Text-content stage: block starts and stops stay balanced against the
open-block count, the start indices form an increasing segment of the
block counter, and the tool-call bookkeeping is untouched. -/
theorem processTextContent_spec (preserveReasoning : Bool)
    (st : StreamState) (d : UpstreamDelta) :
    countStarts (processTextContent preserveReasoning st d).2 +
        openCount st =
      countStops (processTextContent preserveReasoning st d).2 +
        openCount (processTextContent preserveReasoning st d).1 ∧
    IncSeg st.blockIndex
      (processTextContent preserveReasoning st d).1.blockIndex
      (startIndices (processTextContent preserveReasoning st d).2) ∧
    (processTextContent preserveReasoning st d).1.toolCallBlockMap =
      st.toolCallBlockMap ∧
    (processTextContent preserveReasoning st d).1.currentTcIndex =
      st.currentTcIndex := by
  by_cases hcond : (extract_content_from_delta d preserveReasoning).1 ≠ "" ∧
      (extract_content_from_delta d preserveReasoning).2 ≠ ""
  · by_cases hty : st.currentTextBlockType ≠
        some (extract_content_from_delta d preserveReasoning).2
    · cases hcur : st.currentTextBlockType with
      | none =>
        refine ⟨?_, ?_, ?_, ?_⟩ <;>
          simp [processTextContent, hcond, hty, hcur, countStarts,
            countStops, startIndices, openCount, openTextCount,
            openToolCount, isBlockStart, isBlockStop, IncSeg,
            List.countP_cons] <;>
          omega
      | some t =>
        have hne : ¬t = (extract_content_from_delta d preserveReasoning).2 := by
          rw [hcur] at hty
          simpa using hty
        refine ⟨?_, ?_, ?_, ?_⟩ <;>
          simp [processTextContent, hcond, hty, hcur, hne, countStarts,
            countStops, startIndices, openCount, openTextCount,
            openToolCount, isBlockStart, isBlockStop, IncSeg,
            List.countP_cons] <;>
          omega
    · rw [not_not] at hty
      refine ⟨?_, ?_, ?_, ?_⟩ <;>
        simp [processTextContent, hcond, hty, countStarts, countStops,
          startIndices, openCount, openTextCount, openToolCount,
          isBlockStart, isBlockStop, IncSeg, List.countP_cons] <;>
        omega
  · refine ⟨?_, ?_, ?_, ?_⟩ <;>
      simp [processTextContent, hcond, countStarts, countStops,
        startIndices, openCount, IncSeg]

/-- Start counting distributes over concatenation. -/
theorem countStarts_append (l₁ l₂ : List AnthropicEvent) :
    countStarts (l₁ ++ l₂) = countStarts l₁ + countStarts l₂ :=
  List.countP_append isBlockStart l₁ l₂

/-- Stop counting distributes over concatenation. -/
theorem countStops_append (l₁ l₂ : List AnthropicEvent) :
    countStops (l₁ ++ l₂) = countStops l₁ + countStops l₂ :=
  List.countP_append isBlockStop l₁ l₂

/-- Start-index extraction distributes over concatenation. -/
theorem startIndices_append (l₁ l₂ : List AnthropicEvent) :
    startIndices (l₁ ++ l₂) = startIndices l₁ ++ startIndices l₂ :=
  List.filterMap_append l₁ l₂ _

/-- The tool-call stage only ever appends to the tool-call block map. -/
theorem processOneToolCall_map_extends (fresh : Nat → String)
    (st : StreamState) (tc : ToolCallDelta) :
    ∃ ext, (processOneToolCall fresh st tc).1.toolCallBlockMap =
      st.toolCallBlockMap ++ ext := by
  rcases hlk : tcLookup st.toolCallBlockMap tc.index with _ | v
  · exact ⟨[(tc.index,
      ⟨st.blockIndex, synthesizedToolId fresh st tc, tc.name⟩)],
      by simp [processOneToolCall, hlk]⟩
  · exact ⟨[], by simp [processOneToolCall, hlk]⟩

/-- Tool-call stage: block starts and stops stay balanced against the
open-block count and the start indices form an increasing segment,
provided the upstream tool index is non-negative (the cleanup of the
source only ever closes blocks of non-negative indices). -/
theorem processOneToolCall_spec (fresh : Nat → String) (st : StreamState)
    (tc : ToolCallDelta) (hidx : 0 ≤ tc.index) :
    countStarts (processOneToolCall fresh st tc).2 + openCount st =
      countStops (processOneToolCall fresh st tc).2 +
        openCount (processOneToolCall fresh st tc).1 ∧
    IncSeg st.blockIndex (processOneToolCall fresh st tc).1.blockIndex
      (startIndices (processOneToolCall fresh st tc).2) := by
  rcases hlk : tcLookup st.toolCallBlockMap tc.index with _ | v
  · have hnew := tcLookup_append_self st.toolCallBlockMap tc.index
      ⟨st.blockIndex, synthesizedToolId fresh st tc, tc.name⟩ hlk
    rcases hcur : st.currentTextBlockType with _ | t <;>
      by_cases hti : (0 : Int) ≤ st.currentTcIndex <;>
      rcases hlk2 : tcLookup st.toolCallBlockMap st.currentTcIndex
        with _ | w <;>
      by_cases ha : tc.arguments = "" <;>
      refine ⟨?_, ?_⟩ <;>
      simp [processOneToolCall, hlk, hcur, hti, hlk2, ha, hnew, hidx,
        countStarts, countStops, startIndices, isBlockStart, isBlockStop,
        openCount, openTextCount, openToolCount, IncSeg,
        List.countP_cons] <;>
      omega
  · by_cases ha : tc.arguments = "" <;>
      refine ⟨?_, ?_⟩ <;>
      simp [processOneToolCall, hlk, ha, countStarts, countStops,
        startIndices, isBlockStart, isBlockStop, openCount, IncSeg,
        List.countP_cons]

/-- The tool-call loop only ever appends to the tool-call block map. -/
theorem processToolCalls_map_extends (fresh : Nat → String) :
    ∀ (tcs : List ToolCallDelta) (st : StreamState),
      ∃ ext, (processToolCalls fresh st tcs).1.toolCallBlockMap =
        st.toolCallBlockMap ++ ext := by
  intro tcs
  induction tcs with
  | nil => intro st; exact ⟨[], by simp [processToolCalls]⟩
  | cons tc rest ih =>
    intro st
    obtain ⟨e₁, he₁⟩ := processOneToolCall_map_extends fresh st tc
    obtain ⟨e₂, he₂⟩ := ih (processOneToolCall fresh st tc).1
    exact ⟨e₁ ++ e₂, by
      simp only [processToolCalls]
      rw [he₂, he₁, List.append_assoc]⟩

/-- Tool-call loop: balance and the increasing-segment property compose
over the whole `tool_calls` array when all its indices are
non-negative. -/
theorem processToolCalls_spec (fresh : Nat → String) :
    ∀ (tcs : List ToolCallDelta) (st : StreamState),
      (∀ tc ∈ tcs, 0 ≤ tc.index) →
      countStarts (processToolCalls fresh st tcs).2 + openCount st =
        countStops (processToolCalls fresh st tcs).2 +
          openCount (processToolCalls fresh st tcs).1 ∧
      IncSeg st.blockIndex (processToolCalls fresh st tcs).1.blockIndex
        (startIndices (processToolCalls fresh st tcs).2) := by
  intro tcs
  induction tcs with
  | nil =>
    intro st _
    exact ⟨by simp [processToolCalls, countStarts, countStops],
      by simpa [processToolCalls, startIndices] using
        IncSeg_nil st.blockIndex st.blockIndex le_rfl⟩
  | cons tc rest ih =>
    intro st h
    obtain ⟨b₁, s₁⟩ := processOneToolCall_spec fresh st tc
      (h tc (List.mem_cons_self tc rest))
    obtain ⟨b₂, s₂⟩ := ih (processOneToolCall fresh st tc).1
      (fun x hx => h x (List.mem_cons_of_mem tc hx))
    constructor
    · simp only [processToolCalls, countStarts_append, countStops_append]
      omega
    · simp only [processToolCalls, startIndices_append]
      exact IncSeg_append _ _ _ _ _ s₁ s₂

/-- Finish-reason stage: only the pending stop reason changes. -/
theorem processFinishReason_spec (st : StreamState)
    (finishReason : Option String) :
    (processFinishReason st finishReason).blockIndex = st.blockIndex ∧
    openCount (processFinishReason st finishReason) = openCount st ∧
    (processFinishReason st finishReason).toolCallBlockMap =
      st.toolCallBlockMap := by
  refine ⟨?_, ?_, ?_⟩ <;>
    · simp only [processFinishReason]
      split_ifs <;> simp [openCount, openTextCount, openToolCount]

/-- One parsed chunk only ever appends to the tool-call block map. -/
theorem process_parsed_chunk_map_extends (fresh : Nat → String)
    (preserveReasoning : Bool) (st : StreamState) (chunk : UpstreamChunk) :
    ∃ ext,
      (process_parsed_chunk fresh preserveReasoning st chunk).1.toolCallBlockMap =
        st.toolCallBlockMap ++ ext := by
  rcases hch : chunk.choices with _ | ⟨choice, rest⟩
  · exact ⟨[], by simp [process_parsed_chunk, hch]⟩
  · obtain ⟨-, -, hmap, -⟩ :=
      processTextContent_spec preserveReasoning st choice.delta
    obtain ⟨e₂, he₂⟩ := processToolCalls_map_extends fresh
      choice.delta.toolCalls
      (processTextContent preserveReasoning st choice.delta).1
    obtain ⟨-, -, hfr⟩ := processFinishReason_spec
      (processToolCalls fresh
        (processTextContent preserveReasoning st choice.delta).1
        choice.delta.toolCalls).1 choice.finishReason
    exact ⟨e₂, by
      simp only [process_parsed_chunk, hch]
      rw [hfr, he₂, hmap]⟩

/-- One parsed chunk: balance and the increasing-segment property hold
when the chunk's tool-call indices are non-negative. -/
theorem process_parsed_chunk_spec (fresh : Nat → String)
    (preserveReasoning : Bool) (st : StreamState) (chunk : UpstreamChunk)
    (h : ∀ ch ∈ chunk.choices, ∀ tc ∈ ch.delta.toolCalls, 0 ≤ tc.index) :
    countStarts (process_parsed_chunk fresh preserveReasoning st chunk).2 +
        openCount st =
      countStops (process_parsed_chunk fresh preserveReasoning st chunk).2 +
        openCount (process_parsed_chunk fresh preserveReasoning st chunk).1 ∧
    IncSeg st.blockIndex
      (process_parsed_chunk fresh preserveReasoning st chunk).1.blockIndex
      (startIndices
        (process_parsed_chunk fresh preserveReasoning st chunk).2) := by
  rcases hch : chunk.choices with _ | ⟨choice, rest⟩
  · exact ⟨by simp [process_parsed_chunk, hch, countStarts, countStops],
      by simpa [process_parsed_chunk, hch, startIndices] using
        IncSeg_nil st.blockIndex st.blockIndex le_rfl⟩
  · obtain ⟨b₁, s₁, -, -⟩ :=
      processTextContent_spec preserveReasoning st choice.delta
    obtain ⟨b₂, s₂⟩ := processToolCalls_spec fresh choice.delta.toolCalls
      (processTextContent preserveReasoning st choice.delta).1
      (h choice (hch ▸ List.mem_cons_self choice rest))
    obtain ⟨hbi, hoc, -⟩ := processFinishReason_spec
      (processToolCalls fresh
        (processTextContent preserveReasoning st choice.delta).1
        choice.delta.toolCalls).1 choice.finishReason
    constructor
    · simp only [process_parsed_chunk, hch, countStarts_append,
        countStops_append, hoc]
      omega
    · simp only [process_parsed_chunk, hch, startIndices_append, hbi]
      exact IncSeg_append _ _ _ _ _ s₁ s₂

/-- The chunk fold only ever appends to the tool-call block map. -/
theorem processChunks_map_extends (fresh : Nat → String)
    (preserveReasoning : Bool) :
    ∀ (chunks : List UpstreamChunk) (st : StreamState),
      ∃ ext,
        (processChunks fresh preserveReasoning st chunks).1.toolCallBlockMap =
          st.toolCallBlockMap ++ ext := by
  intro chunks
  induction chunks with
  | nil => intro st; exact ⟨[], by simp [processChunks]⟩
  | cons c rest ih =>
    intro st
    obtain ⟨e₁, he₁⟩ := process_parsed_chunk_map_extends fresh
      preserveReasoning st c
    obtain ⟨e₂, he₂⟩ := ih (process_parsed_chunk fresh preserveReasoning st c).1
    exact ⟨e₁ ++ e₂, by
      simp only [processChunks]
      rw [he₂, he₁, List.append_assoc]⟩

/-- The whole chunk fold: balance and the increasing-segment property
hold when every tool-call index of the stream is non-negative. -/
theorem processChunks_spec (fresh : Nat → String)
    (preserveReasoning : Bool) :
    ∀ (chunks : List UpstreamChunk) (st : StreamState),
      (∀ c ∈ chunks, ∀ ch ∈ c.choices, ∀ tc ∈ ch.delta.toolCalls,
        0 ≤ tc.index) →
      countStarts (processChunks fresh preserveReasoning st chunks).2 +
          openCount st =
        countStops (processChunks fresh preserveReasoning st chunks).2 +
          openCount (processChunks fresh preserveReasoning st chunks).1 ∧
      IncSeg st.blockIndex
        (processChunks fresh preserveReasoning st chunks).1.blockIndex
        (startIndices (processChunks fresh preserveReasoning st chunks).2) := by
  intro chunks
  induction chunks with
  | nil =>
    intro st _
    exact ⟨by simp [processChunks, countStarts, countStops],
      by simpa [processChunks, startIndices] using
        IncSeg_nil st.blockIndex st.blockIndex le_rfl⟩
  | cons c rest ih =>
    intro st h
    obtain ⟨b₁, s₁⟩ := process_parsed_chunk_spec fresh preserveReasoning st c
      (h c (List.mem_cons_self c rest))
    obtain ⟨b₂, s₂⟩ := ih (process_parsed_chunk fresh preserveReasoning st c).1
      (fun x hx => h x (List.mem_cons_of_mem c hx))
    constructor
    · simp only [processChunks, countStarts_append, countStops_append]
      omega
    · simp only [processChunks, startIndices_append]
      exact IncSeg_append _ _ _ _ _ s₁ s₂

/-- End-of-stream epilogue: it emits no block start and exactly one
block stop for each block still open. -/
theorem finalEvents_spec (st : StreamState) :
    countStarts (finalEvents st) = 0 ∧
    countStops (finalEvents st) = openCount st ∧
    startIndices (finalEvents st) = [] := by
  rcases hcur : st.currentTextBlockType with _ | t <;>
    by_cases hti : (0 : Int) ≤ st.currentTcIndex <;>
    rcases hlk : tcLookup st.toolCallBlockMap st.currentTcIndex with _ | v <;>
    refine ⟨?_, ?_, ?_⟩ <;>
    simp [finalEvents, hcur, hti, hlk, countStarts, countStops,
      startIndices, openCount, openTextCount, openToolCount,
      isBlockStart, isBlockStop, List.countP_cons]

/-- C1 counterexample.  An upstream tool-call delta carrying a negative
index (`-1`) opens a tool-use block that the re-encoder never closes:
the epilogue only closes tool blocks of non-negative current index, so
the finished stream has one `content_block_start` and zero
`content_block_stop` events, refuting the open/close balance claimed for
every upstream stream. -/
theorem negative_tool_index_breaks_bookkeeping :
    countStarts (generate_anthropic_stream (fun _ => "u") true "glm-5"
      [⟨[⟨⟨"", "", [⟨-1, some "t1", "shell", ""⟩]⟩, none⟩]⟩]) = 1 ∧
    countStops (generate_anthropic_stream (fun _ => "u") true "glm-5"
      [⟨[⟨⟨"", "", [⟨-1, some "t1", "shell", ""⟩]⟩, none⟩]⟩]) = 0 := by
  constructor <;> rfl

/-- C1 amended.  For every upstream stream whose tool-call deltas all
carry non-negative indices (as OpenAI-dialect upstreams do), the
re-encoded Anthropic stream has as many `content_block_start` as
`content_block_stop` events at stream end, and the block indices of
successive `content_block_start` events strictly increase and are never
reused. -/
theorem streaming_bookkeeping_amended (fresh : Nat → String)
    (preserveReasoning : Bool) (model : String)
    (chunks : List UpstreamChunk)
    (h : ∀ c ∈ chunks, ∀ ch ∈ c.choices, ∀ tc ∈ ch.delta.toolCalls,
      0 ≤ tc.index) :
    countStarts
        (generate_anthropic_stream fresh preserveReasoning model chunks) =
      countStops
        (generate_anthropic_stream fresh preserveReasoning model chunks) ∧
    List.Chain' (· < ·) (startIndices
      (generate_anthropic_stream fresh preserveReasoning model chunks)) ∧
    List.Pairwise (· ≠ ·) (startIndices
      (generate_anthropic_stream fresh preserveReasoning model chunks)) := by
  obtain ⟨bal, seg⟩ := processChunks_spec fresh preserveReasoning chunks
    initialStreamState h
  obtain ⟨f1, f2, f3⟩ := finalEvents_spec
    (processChunks fresh preserveReasoning initialStreamState chunks).1
  have hopen0 : openCount initialStreamState = 0 := rfl
  have hgen : generate_anthropic_stream fresh preserveReasoning model
      chunks =
      AnthropicEvent.messageStart model ::
        (processChunks fresh preserveReasoning initialStreamState chunks).2 ++
        finalEvents
          (processChunks fresh preserveReasoning initialStreamState
            chunks).1 := rfl
  have hsi : startIndices
      (generate_anthropic_stream fresh preserveReasoning model chunks) =
      startIndices
        (processChunks fresh preserveReasoning initialStreamState
          chunks).2 := by
    rw [hgen]
    show startIndices (AnthropicEvent.messageStart model ::
      ((processChunks fresh preserveReasoning initialStreamState chunks).2 ++
        finalEvents _)) = _
    simp only [startIndices, List.filterMap_cons, List.filterMap_append]
    rw [show (List.filterMap _ (finalEvents
      (processChunks fresh preserveReasoning initialStreamState
        chunks).1) : List Int) = startIndices (finalEvents _) from rfl, f3,
      List.append_nil]
  have hchain : List.Chain' (· < ·) (startIndices
      (generate_anthropic_stream fresh preserveReasoning model chunks)) := by
    rw [hsi]; exact seg.2.1
  refine ⟨?_, hchain, ?_⟩
  · have hgen2 : generate_anthropic_stream fresh preserveReasoning model
        chunks =
        AnthropicEvent.messageStart model ::
          ((processChunks fresh preserveReasoning initialStreamState
            chunks).2 ++
           finalEvents (processChunks fresh preserveReasoning
             initialStreamState chunks).1) := rfl
    rw [hgen2]
    have h1 : countStarts (AnthropicEvent.messageStart model ::
        ((processChunks fresh preserveReasoning initialStreamState
          chunks).2 ++
         finalEvents (processChunks fresh preserveReasoning
           initialStreamState chunks).1)) =
        countStarts (processChunks fresh preserveReasoning
          initialStreamState chunks).2 +
        countStarts (finalEvents (processChunks fresh preserveReasoning
          initialStreamState chunks).1) := by
      simp [countStarts, List.countP_cons, List.countP_append,
        isBlockStart]
    have h2 : countStops (AnthropicEvent.messageStart model ::
        ((processChunks fresh preserveReasoning initialStreamState
          chunks).2 ++
         finalEvents (processChunks fresh preserveReasoning
           initialStreamState chunks).1)) =
        countStops (processChunks fresh preserveReasoning
          initialStreamState chunks).2 +
        countStops (finalEvents (processChunks fresh preserveReasoning
          initialStreamState chunks).1) := by
      simp [countStops, List.countP_cons, List.countP_append, isBlockStop]
    rw [h1, h2, f1, f2]
    rw [hopen0] at bal
    omega
  · have hp := (List.chain'_iff_pairwise).mp hchain
    exact hp.imp fun hlt => ne_of_lt hlt

/-- Witness for `streaming_bookkeeping_amended` on a concrete stream
carrying a text chunk and a tool-call chunk. -/
theorem streaming_bookkeeping_amended_witness :
    countStarts (generate_anthropic_stream (fun _ => "u") true "glm-5"
        [⟨[⟨⟨"Hello", "", []⟩, none⟩]⟩,
         ⟨[⟨⟨"", "", [⟨0, none, "search", "q"⟩]⟩, some "tool_calls"⟩]⟩]) =
      countStops (generate_anthropic_stream (fun _ => "u") true "glm-5"
        [⟨[⟨⟨"Hello", "", []⟩, none⟩]⟩,
         ⟨[⟨⟨"", "", [⟨0, none, "search", "q"⟩]⟩, some "tool_calls"⟩]⟩]) :=
  (streaming_bookkeeping_amended (fun _ => "u") true "glm-5"
    [⟨[⟨⟨"Hello", "", []⟩, none⟩]⟩,
     ⟨[⟨⟨"", "", [⟨0, none, "search", "q"⟩]⟩, some "tool_calls"⟩]⟩]
    (by decide)).1

/-- C2.  The first delta for an upstream tool index opens exactly one
tool-use block at the current block index — synthesizing a `toolu_…` id
when the delta carries none — and emits the tool name, recording the
block index, id and name in the map; a later delta for an already-mapped
index opens nothing and emits its argument fragment (if any) as an
`input_json_delta` against the mapped block index; and map entries,
once established, survive the processing of any further chunk. -/
theorem tool_call_id_stability (fresh : Nat → String)
    (preserveReasoning : Bool) (st : StreamState) (tc : ToolCallDelta) :
    (tcLookup st.toolCallBlockMap tc.index = none →
      (processOneToolCall fresh st tc).2.filter isBlockStart =
        [AnthropicEvent.toolUseBlockStart st.blockIndex
          (synthesizedToolId fresh st tc) tc.name] ∧
      tcLookup (processOneToolCall fresh st tc).1.toolCallBlockMap
          tc.index =
        some ⟨st.blockIndex, synthesizedToolId fresh st tc, tc.name⟩ ∧
      (tc.id.getD "" = "" →
        synthesizedToolId fresh st tc = "toolu_" ++ fresh st.uuidCounter)) ∧
    (∀ info, tcLookup st.toolCallBlockMap tc.index = some info →
      processOneToolCall fresh st tc =
        (st, if tc.arguments = "" then []
          else [AnthropicEvent.inputJsonDelta info.blockIndex
            tc.arguments])) ∧
    (∀ (chunk : UpstreamChunk) (i : Int) (info : ToolBlockInfo),
      tcLookup st.toolCallBlockMap i = some info →
      tcLookup
        (process_parsed_chunk fresh preserveReasoning st
          chunk).1.toolCallBlockMap i = some info) := by
  refine ⟨?_, ?_, ?_⟩
  · intro hlk
    have hnew := tcLookup_append_self st.toolCallBlockMap tc.index
      ⟨st.blockIndex, synthesizedToolId fresh st tc, tc.name⟩ hlk
    refine ⟨?_, ?_, ?_⟩
    · rcases hcur : st.currentTextBlockType with _ | t <;>
        by_cases hti : (0 : Int) ≤ st.currentTcIndex <;>
        rcases hlk2 : tcLookup st.toolCallBlockMap st.currentTcIndex
          with _ | w <;>
        by_cases ha : tc.arguments = "" <;>
        simp [processOneToolCall, hlk, hcur, hti, hlk2, ha, hnew,
          isBlockStart, List.filter_append]
    · simp [processOneToolCall, hlk, hnew]
    · intro hid
      simp [synthesizedToolId, hid]
  · intro info hlk
    by_cases ha : tc.arguments = "" <;>
      simp [processOneToolCall, hlk, ha]
  · intro chunk i info hlk
    obtain ⟨ext, hext⟩ := process_parsed_chunk_map_extends fresh
      preserveReasoning st chunk
    rw [hext]
    exact tcLookup_append_some st.toolCallBlockMap ext i info hlk

/-- Witness for `tool_call_id_stability`: a first tool-call delta with
no upstream id, processed from the initial stream state. -/
theorem tool_call_id_stability_witness :
    (processOneToolCall (fun _ => "x") initialStreamState
        ⟨0, none, "search", "q"⟩).2.filter isBlockStart =
      [AnthropicEvent.toolUseBlockStart 0
        (synthesizedToolId (fun _ => "x") initialStreamState
          ⟨0, none, "search", "q"⟩) "search"] ∧
    tcLookup (processOneToolCall (fun _ => "x") initialStreamState
        ⟨0, none, "search", "q"⟩).1.toolCallBlockMap 0 =
      some ⟨0, synthesizedToolId (fun _ => "x") initialStreamState
        ⟨0, none, "search", "q"⟩, "search"⟩ ∧
    ((⟨0, none, "search", "q"⟩ : ToolCallDelta).id.getD "" = "" →
      synthesizedToolId (fun _ => "x") initialStreamState
        ⟨0, none, "search", "q"⟩ = "toolu_" ++ (fun _ => "x") 0) :=
  (tool_call_id_stability (fun _ => "x") true initialStreamState
    ⟨0, none, "search", "q"⟩).1 rfl

end Iflow2Api
